import Mathlib

/-!
Verification development for the shared utility layer of a FHIR client library
(`lib.ts`): the dotted-path accessors `getPath`/`setPath`, the token helpers
`jwtDecode`/`getAccessTokenExpiration`, the request/cache pipeline
`request`/`getAndCache`, the target-window resolver `getTargetWindow`, the
JSON-patch validator `assertJsonPatch` and the patient-scoping resolver
`getPatientParam`.

JavaScript values are shallowly embedded as the inductive `JSVal`; numbers are
modelled as integers (no claim under consideration involves fractional numbers
or NaN).  Host primitives (`atob`, `JSON.parse`, `fetch`, the window namespace)
are modelled as explicit parameters; concrete executable models (`stdAtob`,
`jsonParseFn`) are provided for evaluating the functions on concrete inputs.
-/

namespace FhirLib

/-- Shallow embedding of the JavaScript values the library manipulates.
`undefined` is JavaScript `undefined`; objects are ordered key/value lists
(JS property insertion order). -/
inductive JSVal where
  | undefined
  | null
  | bool (b : Bool)
  | num (n : Int)
  | str (s : String)
  | arr (elems : List JSVal)
  | obj (fields : List (String × JSVal))

/-- JavaScript truthiness. `undefined`, `null`, `false`, `0` and `""` are
falsy; every object and array is truthy.  (NaN is not modelled.) -/
def truthy : JSVal → Bool
  | .undefined => false
  | .null => false
  | .bool b => b
  | .num n => n != 0
  | .str s => !s.isEmpty
  | .arr _ => true
  | .obj _ => true

/-- Look up a key in an object field list (first match wins, as JS object
keys are unique). -/
def objGet : List (String × JSVal) → String → JSVal
  | [], _ => .undefined
  | f :: fs, k => if f.1 = k then f.2 else objGet fs k

/-- Does the string consist of one or more decimal digits (the
`/^[0-9]+$/` test used by `setPath`)? -/
def isDigitsCh (l : List Char) : Bool :=
  !l.isEmpty && l.all (fun c => c.isDigit)

/-- Numeric value of a digit list. -/
def digitsVal (l : List Char) : Nat :=
  l.foldl (fun acc c => acc * 10 + (c.toNat - 48)) 0

/-- Parse an all-digit string as an array index.  (JS additionally
canonicalizes indices, e.g. `"007"` is a plain property, not index 7; no
claim exercises non-canonical numerals, so digits parse directly.) -/
def parseIndex (s : String) : Option Nat :=
  if isDigitsCh s.toList then some (digitsVal s.toList) else none

/-- Indexing a JS array by a property name: numeric names address elements
(out-of-range reads give `undefined`), anything else is `undefined`.
(Array properties such as `length` are not modelled; no claim reads them.) -/
def arrGet (xs : List JSVal) (k : String) : JSVal :=
  match parseIndex k with
  | some i => (xs.getD i .undefined)
  | none => .undefined

/-- Total member access `v[k]`: object/array lookup, `undefined` for every
primitive (JS boxes truthy primitives, so reading a property yields
`undefined`; string character/length access is not modelled). -/
def getFieldTotal : JSVal → String → JSVal
  | .obj fs, k => objGet fs k
  | .arr xs, k => arrGet xs k
  | _, _ => .undefined

/-- Member access as JavaScript performs it: reading a property of
`undefined` or `null` throws a `TypeError`; every other value yields
`getFieldTotal`. -/
def getMember : JSVal → String → Except Unit JSVal
  | .undefined, _ => .error ()
  | .null, _ => .error ()
  | v, k => .ok (getFieldTotal v k)

/-- `v` is the string `s` (JS strict equality `===` against a string). -/
def isStrEq (v : JSVal) (s : String) : Bool :=
  match v with
  | .str t => t = s
  | _ => false

/-- Replace the value at key `k`, or append the pair if absent (JS property
assignment on an object). -/
def objSet : List (String × JSVal) → String → JSVal → List (String × JSVal)
  | [], k, v => [(k, v)]
  | f :: fs, k, v => if f.1 = k then (k, v) :: fs else f :: objSet fs k v

/-- Assign array element `i`, padding with `undefined` beyond the current
length (JS sparse-array holes read back as `undefined`). -/
def arrSet : List JSVal → Nat → JSVal → List JSVal
  | [], 0, v => [v]
  | [], i + 1, v => .undefined :: arrSet [] i v
  | _ :: xs, 0, v => v :: xs
  | x :: xs, i + 1, v => x :: arrSet xs i v

/-- JS property assignment `o[k] = v`.  On objects and arrays it stores the
value; on primitives it is modelled as a no-op (sloppy-mode JS ignores the
write; `setPath` only reaches this case on paths the claims call invalid). -/
def setFieldJS : JSVal → String → JSVal → JSVal
  | .obj fs, k, v => .obj (objSet fs k v)
  | .arr xs, k, v =>
    match parseIndex k with
    | some i => .arr (arrSet xs i v)
    | none => .arr xs
  | o, _, _ => o

/-! ### Path-string utilities

`getPath`/`setPath` work on dot-separated path strings.  We model
`String.prototype.trim` and `split(".")` by structural recursion over the
character list so that every definition reduces by `rfl` on concrete input. -/

/-- Whitespace as trimmed by `String.prototype.trim` (the ASCII cases). -/
def isWs (c : Char) : Bool :=
  c = ' ' || c = '\t' || c = '\n' || c = '\r'

/-- `trim`: drop whitespace from both ends of a character list. -/
def trimCh (l : List Char) : List Char :=
  ((l.dropWhile isWs).reverse.dropWhile isWs).reverse

/-- `s.split(".")` over character lists: always returns at least one
(possibly empty) segment, and adjacent dots produce empty segments. -/
def splitDotsCh : List Char → List (List Char)
  | [] => [[]]
  | c :: cs =>
    if c = '.' then [] :: splitDotsCh cs
    else
      match splitDotsCh cs with
      | [] => [[c]]
      | g :: gs => (c :: g) :: gs

/-- `segments.join(".")` over character lists. -/
def joinDotsCh : List (List Char) → List Char
  | [] => []
  | [g] => g
  | g :: gs => g ++ '.' :: joinDotsCh gs

/-- Sequence a failing function over a list (JS `Array.prototype.map` with a
callback that may throw). -/
def mapExcept (f : α → Except Unit β) : List α → Except Unit (List β)
  | [] => .ok []
  | a :: as =>
    match f a with
    | .error e => .error e
    | .ok b =>
      match mapExcept f as with
      | .error e => .error e
      | .ok bs => .ok (b :: bs)

/-! ### `getPath`

Embedding of

```
export function getPath(obj, path = "") {
  path = path.trim();
  if (!path) return obj;
  let segments = path.split(".");
  let result = obj;
  while (result && segments.length) {
    const key = segments.shift();
    if (!key && Array.isArray(result)) {
      return result.map((o) => getPath(o, segments.join(".")));
    } else {
      result = result[key];
    }
  }
  return result;
}
```

The while loop is `getPathGo` (structural recursion over the segment list);
the array-broadcast branch recursively re-enters the string-level function
on `segments.join(".")`, so the string-level function `getPathFuelCh` carries
a fuel argument (structural recursion on fuel, so everything reduces by
`rfl`); `getPath` supplies `path.length + 1` fuel, which `getPath_fuel_ok`
below proves sufficient.  The result is in `Except Unit` so that a thrown
`TypeError` (member access on `undefined`/`null`) is observable; the loop's
truthiness guard is what keeps it unreachable. -/

/-- The `while` loop of `getPath`, parameterized by the recursive
re-entry `recur` used in the array-broadcast branch. -/
def getPathGo (recur : JSVal → List Char → Except Unit JSVal) :
    JSVal → List (List Char) → Except Unit JSVal
  | result, [] => .ok result
  | result, key :: rest =>
    if truthy result then
      match result, key with
      | .arr xs, [] =>
        match mapExcept (fun o => recur o (joinDotsCh rest)) xs with
        | .error e => .error e
        | .ok ys => .ok (.arr ys)
      | _, _ =>
        match getMember result (String.mk key) with
        | .error e => .error e
        | .ok next => getPathGo recur next rest
    else .ok result

/-- Fueled string-level `getPath`. -/
def getPathFuelCh : Nat → JSVal → List Char → Except Unit JSVal
  | 0, _, _ => .error ()
  | fuel + 1, obj, path =>
    let p := trimCh path
    if p.isEmpty then .ok obj
    else getPathGo (getPathFuelCh fuel) obj (splitDotsCh p)

/-- `getPath(obj, path)`. -/
def getPath (obj : JSVal) (path : String) : Except Unit JSVal :=
  getPathFuelCh (path.toList.length + 1) obj path.toList

/-! ### `setPath`

Embedding of

```
export function setPath(obj, path, value, createEmpty = false) {
  path.trim().split(".").reduce((out, key, idx, arr) => {
    if (out && idx === arr.length - 1) {
      out[key] = value;
    } else {
      if (out && out[key] === undefined && createEmpty) {
        out[key] = arr[idx + 1].match(/^[0-9]+$/) ? [] : {};
      }
      return out ? out[key] : undefined;
    }
  }, obj);
  return obj;
}
```

The reduce mutates the nested structure in place; the functional embedding
rebuilds the spine with `setFieldJS` at each visited key, which observes the
same values along every path (aliasing between distinct paths is not
modelled).  When the cursor `out` is falsy the JS code performs no write at
all, so the embedding returns the input unchanged. -/

/-- The fresh container materialized by `createEmpty`: an empty array when
the next segment is purely numeric, an empty object otherwise. -/
def nextFresh (next : List Char) : JSVal :=
  if isDigitsCh next then .arr [] else .obj []

/-- The reduce of `setPath` over the split segment list. -/
def setPathSegs (create : Bool) (v : JSVal) : JSVal → List (List Char) → JSVal
  | o, [] => o
  | o, [k] => if truthy o then setFieldJS o (String.mk k) v else o
  | o, k :: next :: rest =>
    if truthy o then
      match getFieldTotal o (String.mk k) with
      | .undefined =>
        if create then
          setFieldJS o (String.mk k) (setPathSegs create v (nextFresh next) (next :: rest))
        else o
      | child => setFieldJS o (String.mk k) (setPathSegs create v child (next :: rest))
    else o

/-- `setPath(obj, path, value, createEmpty)`. -/
def setPath (obj : JSVal) (path : String) (v : JSVal) (create : Bool := false) : JSVal :=
  setPathSegs create v obj (splitDotsCh (trimCh path.toList))

/-- A "valid dotted path" for the round-trip property: every visited
segment addresses a container (an object with a nonempty key, or an array
with a numeric key), and a missing intermediate is only allowed when
`createEmpty` will materialize it. -/
def segWritable : JSVal → List Char → Bool
  | .obj _, k => !k.isEmpty
  | .arr _, k => isDigitsCh k
  | _, _ => false

/-- Decidable validity of a segment list for the write/read round trip. -/
def canWrite (create : Bool) : JSVal → List (List Char) → Bool
  | _, [] => false
  | o, [k] => segWritable o k
  | o, k :: next :: rest =>
    segWritable o k &&
      (match getFieldTotal o (String.mk k) with
       | .undefined => create && canWrite create (nextFresh next) (next :: rest)
       | child => canWrite create child (next :: rest))

/-! ### Host primitives: `atob` and `JSON.parse`

`jwtDecode` calls the adapter-supplied `env.atob` and the global
`JSON.parse`; both can throw.  The functions are modelled abstractly by the
`JsRuntime` structure, and concretely by `stdAtob` (WHATWG `atob`: rejects
inputs whose length is ≡ 1 mod 4 after padding removal or that contain
characters outside the base64 alphabet) and `jsonParseFn` (a recursive
descent over JSON restricted to integer numerals and escape-free strings,
which covers every literal in this development; anything else is a parse
error, as it would be for the host parser on the inputs used here). -/

/-- Value of a base64 alphabet character. -/
def b64Val (c : Char) : Option Nat :=
  if 'A' ≤ c && c ≤ 'Z' then some (c.toNat - 65)
  else if 'a' ≤ c && c ≤ 'z' then some (c.toNat - 97 + 26)
  else if '0' ≤ c && c ≤ '9' then some (c.toNat - 48 + 52)
  else if c = '+' then some 62
  else if c = '/' then some 63
  else none

/-- Map every character through the base64 table, failing on the first
invalid one. -/
def b64Vals : List Char → Option (List Nat)
  | [] => some []
  | c :: cs =>
    match b64Val c, b64Vals cs with
    | some v, some vs => some (v :: vs)
    | _, _ => none

/-- Reassemble 6-bit groups into bytes (the final partial group contributes
its complete bytes only). -/
def sextetsToBytes : List Nat → List Nat
  | a :: b :: c :: d :: rest =>
    (a * 4 + b / 16) :: ((b % 16) * 16 + c / 4) :: ((c % 4) * 64 + d) :: sextetsToBytes rest
  | [a, b] => [a * 4 + b / 16]
  | [a, b, c] => [a * 4 + b / 16, (b % 16) * 16 + c / 4]
  | _ => []

/-- Drop up to two trailing `=` padding characters. -/
def dropPadding (l : List Char) : List Char :=
  match l.reverse with
  | '=' :: '=' :: rest => rest.reverse
  | '=' :: rest => rest.reverse
  | _ => l

/-- Concrete model of the browser `atob`: throws (error) on inputs that are
not forgiving-base64, otherwise yields the decoded byte string. -/
def stdAtob (s : String) : Except Unit String :=
  let l := dropPadding s.toList
  if l.length % 4 = 1 then .error ()
  else
    match b64Vals l with
    | none => .error ()
    | some vs => .ok (String.mk ((sextetsToBytes vs).map Char.ofNat))

/-- JSON whitespace skip. -/
def skipWsJson (l : List Char) : List Char :=
  l.dropWhile (fun c => c = ' ' || c = '\t' || c = '\n' || c = '\r')

/-- Read the characters of a JSON string up to the closing quote (escape
sequences are not supported and fail). -/
def readJsonString : List Char → Except Unit (List Char × List Char)
  | [] => .error ()
  | c :: cs =>
    if c = '"' then .ok ([], cs)
    else if c = '\\' then .error ()
    else
      match readJsonString cs with
      | .error e => .error e
      | .ok (s, rest) => .ok (c :: s, rest)

/-- Read a run of decimal digits. -/
def readDigits : List Char → (List Char × List Char)
  | [] => ([], [])
  | c :: cs =>
    if c.isDigit then
      let (ds, rest) := readDigits cs
      (c :: ds, rest)
    else ([], c :: cs)

/-- Does the input start with the given keyword? Returns the remainder. -/
def eatKeyword : List Char → List Char → Option (List Char)
  | [], rest => some rest
  | _, [] => none
  | k :: ks, c :: cs => if k = c then eatKeyword ks cs else none

mutual

/-- Fueled JSON value parser; returns the value and the unconsumed input. -/
def parseJsonVal : Nat → List Char → Except Unit (JSVal × List Char)
  | 0, _ => .error ()
  | fuel + 1, input =>
    match skipWsJson input with
    | [] => .error ()
    | c :: cs =>
      if c = '"' then
        match readJsonString cs with
        | .error e => .error e
        | .ok (s, rest) => .ok (.str (String.mk s), rest)
      else if c = 't' then
        match eatKeyword ['r', 'u', 'e'] cs with
        | some rest => .ok (.bool true, rest)
        | none => .error ()
      else if c = 'f' then
        match eatKeyword ['a', 'l', 's', 'e'] cs with
        | some rest => .ok (.bool false, rest)
        | none => .error ()
      else if c = 'n' then
        match eatKeyword ['u', 'l', 'l'] cs with
        | some rest => .ok (.null, rest)
        | none => .error ()
      else if c = '-' then
        match readDigits cs with
        | ([], _) => .error ()
        | (ds, rest) => .ok (.num (-(digitsVal ds : Int)), rest)
      else if c.isDigit then
        match readDigits (c :: cs) with
        | (ds, rest) => .ok (.num (digitsVal ds : Int), rest)
      else if c = '[' then
        match skipWsJson cs with
        | ']' :: rest => .ok (.arr [], rest)
        | _ => parseJsonElems fuel cs
      else if c = Char.ofNat 123 then
        match skipWsJson cs with
        | d :: rest =>
          if d = Char.ofNat 125 then .ok (.obj [], rest)
          else parseJsonMembers fuel (d :: rest)
        | [] => .error ()
      else .error ()

/-- Parse the elements of a nonempty JSON array (after the `[`). -/
def parseJsonElems (fuel : Nat) (input : List Char) : Except Unit (JSVal × List Char) :=
  match fuel with
  | 0 => .error ()
  | fuel + 1 =>
    match parseJsonVal fuel input with
    | .error e => .error e
    | .ok (v, rest) =>
      match skipWsJson rest with
      | ',' :: more =>
        match parseJsonElems fuel more with
        | .ok (.arr vs, rest2) => .ok (.arr (v :: vs), rest2)
        | _ => .error ()
      | ']' :: more => .ok (.arr [v], more)
      | _ => .error ()

/-- Parse the members of a nonempty JSON object (after the opening brace). -/
def parseJsonMembers (fuel : Nat) (input : List Char) : Except Unit (JSVal × List Char) :=
  match fuel with
  | 0 => .error ()
  | fuel + 1 =>
    match skipWsJson input with
    | '"' :: cs =>
      match readJsonString cs with
      | .error e => .error e
      | .ok (k, rest) =>
        match skipWsJson rest with
        | ':' :: afterColon =>
          match parseJsonVal fuel afterColon with
          | .error e => .error e
          | .ok (v, rest2) =>
            match skipWsJson rest2 with
            | ',' :: more =>
              match parseJsonMembers fuel more with
              | .ok (.obj fs, rest3) => .ok (.obj ((String.mk k, v) :: fs), rest3)
              | _ => .error ()
            | d :: more =>
              if d = Char.ofNat 125 then .ok (.obj [(String.mk k, v)], more)
              else .error ()
            | [] => .error ()
        | _ => .error ()
    | _ => .error ()

end

/-- Concrete model of `JSON.parse`: parse one value and require only
whitespace afterwards. -/
def jsonParseFn (s : String) : Except Unit JSVal :=
  match parseJsonVal (s.toList.length + 1) s.toList with
  | .error e => .error e
  | .ok (v, rest) =>
    match skipWsJson rest with
    | [] => .ok v
    | _ => .error ()

/-- The host capabilities `jwtDecode` consumes: the adapter's `atob` and
the global `JSON.parse`, both of which may throw. -/
structure JsRuntime where
  atob : String → Except Unit String
  jsonParse : String → Except Unit JSVal

/-- The standard runtime: browser-grade `atob` and `JSON.parse` models. -/
def stdRuntime : JsRuntime :=
  { atob := stdAtob, jsonParse := jsonParseFn }

/-! ### `jwtDecode` and `getAccessTokenExpiration` -/

/-- `token.split(".")` as a list of strings. -/
def splitDots (s : String) : List String :=
  (splitDotsCh s.toList).map String.mk

/-- Embedding of

```
export function jwtDecode(token, env) {
  const payload = token.split(".")[1];
  return payload ? JSON.parse(env.atob(payload)) : null;
}
```

`token.split(".")[1]` is `undefined` when there is no second segment; both
`undefined` and `""` are falsy, so those cases return `null` (`Except.ok
none`).  Otherwise the result is `JSON.parse(env.atob(payload))`, and a
throw from either host primitive propagates. -/
def jwtPayload (token : String) : String :=
  (splitDots token).getD 1 ""

/-- See `jwtPayload` for the `token.split(".")[1]` step. -/
def jwtDecode (rt : JsRuntime) (token : String) : Except Unit (Option JSVal) :=
  let payload := jwtPayload token
  if payload.isEmpty then .ok none
  else
    match rt.atob payload with
    | .error e => .error e
    | .ok decoded =>
      match rt.jsonParse decoded with
      | .error e => .error e
      | .ok v => .ok (some v)

/-- The token-response fields `getAccessTokenExpiration` reads. -/
structure TokenResponse where
  expires_in : Option Int := none
  access_token : Option String := none

/-- Truthiness of an optional numeric field (`undefined` and `0` are
falsy). -/
def truthyOptNum : Option Int → Bool
  | some n => n != 0
  | none => false

/-- Truthiness of an optional string field (`undefined` and `""` are
falsy). -/
def truthyOptStr : Option String → Bool
  | some s => !s.isEmpty
  | none => false

/-- Embedding of

```
export function getAccessTokenExpiration(tokenResponse, env) {
  const now = Math.floor(Date.now() / 1000);
  if (tokenResponse.expires_in) return now + tokenResponse.expires_in;
  if (tokenResponse.access_token) {
    let tokenBody = jwtDecode(tokenResponse.access_token, env);
    if (tokenBody && tokenBody.exp) return tokenBody.exp;
  }
  return now + 300;
}
```

The ambient clock is the explicit `now` parameter.  The result is the
returned JS value (`tokenBody.exp` is returned as-is); a throw inside
`jwtDecode` propagates. -/
def getAccessTokenExpiration (rt : JsRuntime) (now : Int) (t : TokenResponse) :
    Except Unit JSVal :=
  if truthyOptNum t.expires_in then .ok (.num (now + t.expires_in.getD 0))
  else if truthyOptStr t.access_token then
    match jwtDecode rt (t.access_token.getD "") with
    | .error e => .error e
    | .ok tokenBody =>
      match tokenBody with
      | some b =>
        if truthy b && truthy (getFieldTotal b "exp") then .ok (getFieldTotal b "exp")
        else .ok (.num (now + 300))
      | none => .ok (.num (now + 300))
  else .ok (.num (now + 300))

/-! ### `getAndCache`

```
const cache: Record<string, any> = {};
export function getAndCache(url, requestOptions, force = ...) {
  if (force || !cache[url]) {
    cache[url] = request(url, requestOptions);
    return cache[url];
  }
  return Promise.resolve(cache[url]);
}
```

The module-level cache maps each URL to the *promise* returned by
`request`.  The model identifies each issued request (promise) by a fresh
natural number: `nextId` counts the requests issued so far, so the number
of underlying requests a call sequence performs is the growth of `nextId`.
Cached promises are always truthy objects, so `!cache[url]` is exactly
"no entry".  The promise's eventual outcome is an arbitrary function
`Nat → Except Unit JSVal` in the theorems, since `getAndCache` never
inspects it — which is precisely what makes rejections stick in the
cache.  (The `force` default, `process.env.NODE_ENV === "test"`, is an
environment read; `force` is an explicit argument here.) -/

/-- The module-level cache plus the supply of fresh request (promise)
identities. -/
structure CacheState where
  entries : List (String × Nat) := []
  nextId : Nat := 0

/-- `cache[url]` as an optional promise id. -/
def cacheLookup (s : CacheState) (url : String) : Option Nat :=
  (s.entries.find? (fun e => e.1 = url)).map (fun e => e.2)

/-- Store `cache[url] = id`. -/
def cacheStore (entries : List (String × Nat)) (url : String) (id : Nat) :
    List (String × Nat) :=
  match entries with
  | [] => [(url, id)]
  | e :: es => if e.1 = url then (url, id) :: es else e :: cacheStore es url id

/-- One call of `getAndCache(url, _, force)`: returns the promise the
caller observes and the updated module state. -/
def getAndCache (url : String) (force : Bool) (s : CacheState) : Nat × CacheState :=
  match cacheLookup s url with
  | some p =>
    if force then
      (s.nextId, { entries := cacheStore s.entries url s.nextId, nextId := s.nextId + 1 })
    else (p, s)
  | none =>
    (s.nextId, { entries := cacheStore s.entries url s.nextId, nextId := s.nextId + 1 })

/-- `n` back-to-back unforced calls for the same URL (the event-loop
serialization of `n` concurrent callers: no suspension point separates the
cache check from the store, so the calls interleave whole). -/
def getAndCacheN : Nat → String → CacheState → List Nat × CacheState
  | 0, _, s => ([], s)
  | n + 1, url, s =>
    let r := getAndCache url false s
    let rs := getAndCacheN n url r.2
    (r.1 :: rs.1, rs.2)

/-- Run an arbitrary call sequence (url, force) through the cache. -/
def runCalls : List (String × Bool) → CacheState → CacheState
  | [], s => s
  | c :: cs, s => runCalls cs (getAndCache c.1 c.2 s).2

/-! ### The `request` pipeline

```
export function request(url, requestOptions = {}) {
  const { includeResponse, ...options } = requestOptions;
  return fetch(url, { mode: "cors", ...options, headers: {...} })
    .then(checkResponse)
    .then(async (res) => {
      const type = res.headers.get("content-type") + "";
      const isJson = type.match(/\bjson\b/i);
      const isText = type.match(/\btext\b/i);
      return { res, body: isJson ? await res.json() : isText ? await res.text() : undefined };
    })
    .then(({ body, res }) => {
      if (!body && res.status == 201) {
        const location = res.headers.get("location");
        if (location) {
          return request(location, { ...options, method: "GET", body: null, includeResponse });
        }
      }
      if (includeResponse) return { body, response: res };
      if (body === undefined) return res;
      return body;
    });
}
```

The platform `fetch` is modelled as a total map from URL and options to a
response (network rejection is folded into `ok = false`, which
`checkResponse` turns into a thrown `HttpError`; the CORS mode and header
merge have no bearing on any claim and are not modelled).  The content-type
sniff is carried as the two Booleans `isJson`/`isText` (checked in that
order, as in the ternary).  `res.json()` is `JSON.parse` of the body text
and can throw.  The recursion on the `location` header is fuel-indexed. -/

/-- The response data the pipeline reads. -/
structure FetchResponse where
  ok : Bool
  status : Nat
  isJson : Bool
  isText : Bool
  bodyText : String
  location : Option String

/-- The request options the pipeline manipulates. -/
structure FetchOptions where
  method : Option String := none
  body : Option String := none
  includeResponse : Bool := false

/-- What `request` resolves with: the parsed body, the raw response (when
the body is `undefined`), or the `{body, response}` pair. -/
inductive FetchResult where
  | jsonBody (v : JSVal)
  | rawResponse (r : FetchResponse)
  | withResponse (v : JSVal) (r : FetchResponse)

/-- Decode the body according to the content-type sniff; a JSON parse
failure is a rejection. -/
def decodeBody (rt : JsRuntime) (res : FetchResponse) : Except Unit JSVal :=
  if res.isJson then rt.jsonParse res.bodyText
  else if res.isText then .ok (.str res.bodyText)
  else .ok .undefined

/-- The tail of the pipeline after the 201/location check. -/
def finishRequest (body : JSVal) (res : FetchResponse) (includeResponse : Bool) :
    FetchResult :=
  if includeResponse then .withResponse body res
  else
    match body with
    | .undefined => .rawResponse res
    | b => .jsonBody b

/-- `request(url, options)`, with `env` the platform fetch and `fuel`
bounding the 201-location recursion depth. -/
def request (rt : JsRuntime) (env : String → FetchOptions → FetchResponse) :
    Nat → String → FetchOptions → Except Unit FetchResult
  | 0, _, _ => .error ()
  | fuel + 1, url, opts =>
    let res := env url opts
    if !res.ok then .error ()
    else
      match decodeBody rt res with
      | .error e => .error e
      | .ok body =>
        if !truthy body && res.status == 201 then
          match res.location with
          | some loc =>
            request rt env fuel loc
              { opts with method := some "GET", body := none }
          | none => .ok (finishRequest body res opts.includeResponse)
        else .ok (finishRequest body res opts.includeResponse)

/-! ### `getTargetWindow`

The browser globals (`self`, `parent`, `top`, `frames`, `window.open`) are
an explicit environment; windows are opaque identities (`Nat`).  The two
`window.open` calls sit inside `try`/`catch` in the source, so both a throw
and a `null` return degrade to `self`; they are modelled as
`Except Unit (Option Win)`.  A caller-supplied function target is awaited
exactly once, with no surrounding `try`, so its throw propagates — its
invocation is modelled by the `Except` result it produces. -/

/-- Window identity. -/
abbrev Win := Nat

/-- The window/global namespace `getTargetWindow` consumes. -/
structure WinEnv where
  selfW : Win
  parentW : Win
  topW : Option Win
  openBlank : Except Unit (Option Win)
  openPopup : Nat → Nat → Except Unit (Option Win)
  framesW : String → Option Win

/-- The possible `WindowTarget` arguments: a (possibly throwing, possibly
asynchronous) function producing another target, a window object, a string,
`null`, or any other non-string primitive. -/
inductive WTarget where
  | fnT (res : Except Unit WTarget)
  | winT (w : Win)
  | strT (s : String)
  | nullT
  | otherT

/-- The body of `getTargetWindow` after the single function-unwrapping
step: every branch returns a window, falling back to `self`. -/
def resolveTarget (env : WinEnv) (width height : Nat) : WTarget → Win
  | .winT w => w
  | .strT s =>
    if s = "_self" then env.selfW
    else if s = "_parent" then env.parentW
    else if s = "_top" then env.topW.getD env.selfW
    else if s = "_blank" then
      match env.openBlank with
      | .ok (some w) => w
      | _ => env.selfW
    else if s = "popup" then
      match env.openPopup width height with
      | .ok (some w) => w
      | _ => env.selfW
    else
      match env.framesW s with
      | some w => w
      | none => env.selfW
  | _ => env.selfW

/-- `getTargetWindow(target, width = 800, height = 720)`. -/
def getTargetWindow (env : WinEnv) (target : WTarget)
    (width : Nat := 800) (height : Nat := 720) : Except Unit Win :=
  match target with
  | .fnT res =>
    match res with
    | .error e => .error e
    | .ok t => .ok (resolveTarget env width height t)
  | t => .ok (resolveTarget env width height t)

/-! ### `assertJsonPatch` -/

/-- The recognized operation names. -/
def jsonPatchOps : List String := ["add", "replace", "test", "move", "copy", "remove"]

/-- `Object.keys(v).length` (0 for non-objects). -/
def numKeys : JSVal → Nat
  | .obj fs => fs.length
  | _ => 0

/-- `"k" in v` (property presence, regardless of its value). -/
def hasKey (v : JSVal) (k : String) : Bool :=
  match v with
  | .obj fs => fs.any (fun f => f.1 = k)
  | _ => false

/-- Is the value a string (`typeof x == "string"`)? -/
def isStringVal : JSVal → Bool
  | .str _ => true
  | _ => false

/-- The per-operation checks of `assertJsonPatch`, in source order:
`op` must be one of the six names; `operation.path && typeof operation.path`
reduces to the truthiness of `path` (the `typeof` string is always truthy);
add/replace/test need a `value` key and exactly 3 keys; move/copy need a
string `from` and exactly 3 keys; remove (the remaining recognized op)
needs exactly 2 keys. -/
def patchOpOk (operation : JSVal) : Bool :=
  let op := getFieldTotal operation "op"
  (jsonPatchOps.any (fun s => isStrEq op s)) &&
  truthy (getFieldTotal operation "path") &&
  (if isStrEq op "add" || isStrEq op "replace" || isStrEq op "test" then
    hasKey operation "value" && numKeys operation == 3
   else if isStrEq op "move" || isStrEq op "copy" then
    isStringVal (getFieldTotal operation "from") && numKeys operation == 3
   else numKeys operation == 2)

/-- `assertJsonPatch(patch)` as a predicate: `true` iff no assertion
throws.  The document must be an array, nonempty, and every operation must
pass `patchOpOk`. -/
def assertJsonPatch (patch : JSVal) : Bool :=
  match patch with
  | .arr ops => !ops.isEmpty && ops.all patchOpOk
  | _ => false

/-- The validity condition exactly as the specification words it, for
comparison with the code: "every operation has a recognized `op` name and a
`path`" is read literally as the presence of a `path` field; the
field-count rules are as in the spec. -/
def specPatchOpOk (operation : JSVal) : Bool :=
  (jsonPatchOps.any (fun s => isStrEq (getFieldTotal operation "op") s)) &&
  hasKey operation "path" &&
  (if isStrEq (getFieldTotal operation "op") "add"
      || isStrEq (getFieldTotal operation "op") "replace"
      || isStrEq (getFieldTotal operation "op") "test" then
    hasKey operation "value" && numKeys operation == 3
   else if isStrEq (getFieldTotal operation "op") "move"
      || isStrEq (getFieldTotal operation "op") "copy" then
    isStringVal (getFieldTotal operation "from") && numKeys operation == 3
   else numKeys operation == 2)

/-- The document-level condition as the specification words it. -/
def specJsonPatchOk (patch : JSVal) : Bool :=
  match patch with
  | .arr ops => !ops.isEmpty && ops.all specPatchOpOk
  | _ => false

/-! ### `getPatientParam`

```
export function getPatientParam(conformance, resourceType) {
  const resources = getPath(conformance, "rest.0.resource") || [];
  const meta = resources.find((r) => r.type === resourceType);
  if (!meta) throw new Error(...not supported...);
  if (!Array.isArray(meta.searchParam)) throw new Error(...no search parameters...);
  if (resourceType == "Patient" && meta.searchParam.find((x) => x.name == "_id"))
    return "_id";
  const out = patientParams.find((p) => meta.searchParam.find((x) => x.name == p));
  if (!out) throw new Error(...);
  return out;
}
```

`patientParams` is imported from the repository's `settings` module, which
is not among the provided sources.  Modelled from the spec: the spec
describes it only as "a fixed, priority-ordered list of canonical
patient-scoping parameter names" without enumerating them, so the list is
an explicit parameter of the embedding (the theorems hold for every list).
`x.name == p` compares conformance-declared names, which are strings, so
the loose `==` is modelled as string equality.  Calling `.find` on a truthy
non-array `resources` value would throw a `TypeError`; that is the final
error case. -/
def getPatientParam (patientParams : List String) (conformance : JSVal)
    (resourceType : String) : Except Unit String :=
  match getPath conformance "rest.0.resource" with
  | .error e => .error e
  | .ok g =>
    let resources := if truthy g then g else .arr []
    match resources with
    | .arr rs =>
      match rs.find? (fun r => isStrEq (getFieldTotal r "type") resourceType) with
      | none => .error ()
      | some meta =>
        match getFieldTotal meta "searchParam" with
        | .arr sps =>
          if resourceType == "Patient"
              && sps.any (fun x => isStrEq (getFieldTotal x "name") "_id") then
            .ok "_id"
          else
            match patientParams.find?
                (fun p => sps.any (fun x => isStrEq (getFieldTotal x "name") p)) with
            | some out => .ok out
            | none => .error ()
        | _ => .error ()
    | _ => .error ()

/-! ### Lemmas about the path mini-language -/

theorem length_dropWhile_le (p : Char → Bool) (l : List Char) :
    (l.dropWhile p).length ≤ l.length := by
  induction l with
  | nil => simp [List.dropWhile]
  | cons c cs ih =>
    by_cases h : p c
    all_goals simp [List.dropWhile, h]
    all_goals omega

theorem trimCh_length_le (l : List Char) : (trimCh l).length ≤ l.length := by
  unfold trimCh
  have h1 := length_dropWhile_le isWs l
  have h2 := length_dropWhile_le isWs (l.dropWhile isWs).reverse
  simp only [List.length_reverse] at h1 h2 ⊢
  omega

theorem splitDotsCh_ne_nil (l : List Char) : splitDotsCh l ≠ [] := by
  induction l with
  | nil => simp [splitDotsCh]
  | cons c cs ih =>
    simp only [splitDotsCh]
    split
    · simp
    · cases h : splitDotsCh cs <;> simp

theorem joinDotsCh_splitDotsCh (l : List Char) : joinDotsCh (splitDotsCh l) = l := by
  induction l with
  | nil => rfl
  | cons c cs ih =>
    simp only [splitDotsCh]
    split
    · next hc =>
      obtain ⟨g, gs, hgs⟩ : ∃ g gs, splitDotsCh cs = g :: gs := by
        cases h : splitDotsCh cs with
        | nil => exact absurd h (splitDotsCh_ne_nil cs)
        | cons g gs => exact ⟨g, gs, rfl⟩
      rw [hgs]
      show '.' :: joinDotsCh (g :: gs) = c :: cs
      rw [← hgs, ih, hc]
    · next hc =>
      cases h : splitDotsCh cs with
      | nil => exact absurd h (splitDotsCh_ne_nil cs)
      | cons g gs =>
        rw [h] at ih
        cases gs with
        | nil =>
          show c :: g = c :: cs
          simpa using ih
        | cons g2 t =>
          show (c :: g) ++ '.' :: joinDotsCh (g2 :: t) = c :: cs
          simpa using ih

theorem joinDotsCh_tail_le (key : List Char) (rest : List (List Char)) :
    (joinDotsCh rest).length ≤ (joinDotsCh (key :: rest)).length := by
  cases rest with
  | nil => simp [joinDotsCh]
  | cons g gs =>
    show (joinDotsCh (g :: gs)).length ≤ (key ++ '.' :: joinDotsCh (g :: gs)).length
    simp
    omega

theorem joinDotsCh_tail_lt (key : List Char) (rest : List (List Char))
    (h : rest ≠ []) :
    (joinDotsCh rest).length < (joinDotsCh (key :: rest)).length := by
  cases rest with
  | nil => exact absurd rfl h
  | cons g gs =>
    show (joinDotsCh (g :: gs)).length < (key ++ '.' :: joinDotsCh (g :: gs)).length
    simp
    omega

theorem exceptOk_exists {x : Except Unit α} (h : x.isOk = true) : ∃ b, x = .ok b := by
  cases x with
  | ok b => exact ⟨b, rfl⟩
  | error e => exact Bool.noConfusion h

theorem mapExcept_isOk (f : α → Except Unit β) (xs : List α)
    (h : ∀ a ∈ xs, (f a).isOk = true) : (mapExcept f xs).isOk = true := by
  induction xs with
  | nil => rfl
  | cons a as ih =>
    simp only [mapExcept]
    obtain ⟨b, hb⟩ := exceptOk_exists (h a (by simp))
    rw [hb]
    obtain ⟨bs, hbs⟩ := exceptOk_exists (ih (fun x hx => h x (by simp [hx])))
    rw [hbs]
    rfl

theorem getMember_truthy {v : JSVal} (k : String) (h : truthy v = true) :
    getMember v k = .ok (getFieldTotal v k) := by
  cases v
  all_goals first | rfl | simp [truthy] at h

theorem getPathGo_isOk (recur : JSVal → List Char → Except Unit JSVal) (B : Nat)
    (hrec : ∀ o s, s.length < B → (recur o s).isOk = true) (hB : 1 ≤ B) :
    ∀ (segs : List (List Char)) (obj : JSVal),
      (joinDotsCh segs).length ≤ B → (getPathGo recur obj segs).isOk = true := by
  intro segs
  induction segs with
  | nil => intro obj _; rfl
  | cons key rest ih =>
    intro obj hlen
    by_cases ht : truthy obj
    · have hmem := getMember_truthy (v := obj) (String.mk key) ht
      have hrest : (joinDotsCh rest).length ≤ B :=
        le_trans (joinDotsCh_tail_le key rest) hlen
      have hbr : ∀ xs, obj = .arr xs → key = [] →
          (mapExcept (fun o => recur o (joinDotsCh rest)) xs).isOk = true := by
        intro xs _ _
        apply mapExcept_isOk
        intro a _
        apply hrec
        have hlt : (joinDotsCh rest).length < (joinDotsCh (key :: rest)).length
            ∨ (joinDotsCh rest).length = 0 := by
          cases rest with
          | nil => right; rfl
          | cons g gs => left; exact joinDotsCh_tail_lt key (g :: gs) (by simp)
        rcases hlt with hlt | hz
        · omega
        · omega
      cases obj with
      | arr xs =>
        cases key with
        | nil =>
          simp only [getPathGo, ht, if_true]
          obtain ⟨ys, hys⟩ := exceptOk_exists (hbr xs rfl rfl)
          rw [hys]
          rfl
        | cons c cs =>
          simp only [getPathGo, ht, if_true]
          rw [show getMember (JSVal.arr xs) (String.mk (c :: cs))
              = .ok (getFieldTotal (JSVal.arr xs) (String.mk (c :: cs))) from hmem]
          exact ih _ hrest
      | obj fs =>
        simp only [getPathGo, ht, if_true]
        rw [show getMember (JSVal.obj fs) (String.mk key)
            = .ok (getFieldTotal (JSVal.obj fs) (String.mk key)) from hmem]
        exact ih _ hrest
      | bool b =>
        simp only [getPathGo, ht, if_true]
        rw [show getMember (JSVal.bool b) (String.mk key)
            = .ok (getFieldTotal (JSVal.bool b) (String.mk key)) from hmem]
        exact ih _ hrest
      | num n =>
        simp only [getPathGo, ht, if_true]
        rw [show getMember (JSVal.num n) (String.mk key)
            = .ok (getFieldTotal (JSVal.num n) (String.mk key)) from hmem]
        exact ih _ hrest
      | str s =>
        simp only [getPathGo, ht, if_true]
        rw [show getMember (JSVal.str s) (String.mk key)
            = .ok (getFieldTotal (JSVal.str s) (String.mk key)) from hmem]
        exact ih _ hrest
      | undefined => simp [truthy] at ht
      | null => simp [truthy] at ht
    · simp only [getPathGo, ht, if_false]
      rfl

theorem getPathFuelCh_isOk :
    ∀ (fuel : Nat) (obj : JSVal) (path : List Char), path.length < fuel →
      (getPathFuelCh fuel obj path).isOk = true := by
  intro fuel
  induction fuel with
  | zero => intro _ _ h; exact absurd h (Nat.not_lt_zero _)
  | succ f ih =>
    intro obj path h
    simp only [getPathFuelCh]
    by_cases he : (trimCh path).isEmpty
    · simp only [he, if_true]
      rfl
    · have htrim : (trimCh path).length ≤ path.length := trimCh_length_le path
      have hne : 1 ≤ (trimCh path).length := by
        cases hl : trimCh path with
        | nil => rw [hl] at he; simp at he
        | cons a as => simp
      simp only [he, if_false]
      apply getPathGo_isOk (getPathFuelCh f) f
      · intro o s hs
        exact ih o s hs
      · omega
      · rw [joinDotsCh_splitDotsCh]
        omega

/-- `getPath` always resolves (the code never raises). -/
theorem getPath_isOk (obj : JSVal) (path : String) : (getPath obj path).isOk = true :=
  getPathFuelCh_isOk _ obj path.toList (Nat.lt_succ_self _)

/-- A falsy traversal cursor stops the loop and is returned as-is. -/
theorem getPathGo_falsy (recur : JSVal → List Char → Except Unit JSVal)
    (obj : JSVal) (key : List Char) (rest : List (List Char))
    (h : truthy obj = false) : getPathGo recur obj (key :: rest) = .ok obj := by
  simp [getPathGo, h]

/-- A missing intermediate value propagates as `undefined`. -/
theorem getPathGo_undefined (recur : JSVal → List Char → Except Unit JSVal)
    (segs : List (List Char)) : getPathGo recur JSVal.undefined segs = .ok .undefined := by
  cases segs with
  | nil => rfl
  | cons key rest => exact getPathGo_falsy recur _ key rest rfl

/-- A blank path returns the root unchanged. -/
theorem getPath_blank (obj : JSVal) (path : String)
    (h : (trimCh path.toList).isEmpty = true) : getPath obj path = .ok obj := by
  simp only [getPath, getPathFuelCh, h, if_true]

/-- C6 (amended).  `getPath` never raises for any root/path pair, and an
empty or blank path returns the root itself unchanged.  Traversal stops as
soon as the intermediate cursor is falsy and returns that value as-is: a
missing intermediate (`undefined`) therefore yields `undefined`, but a
`null` (or `0`, `""`, `false`) intermediate is returned itself rather than
being coerced to `undefined`. -/
theorem claimC6_getPath_short_circuit :
    (∀ (obj : JSVal) (path : String), (getPath obj path).isOk = true)
    ∧ (∀ (obj : JSVal) (path : String),
        (trimCh path.toList).isEmpty = true → getPath obj path = .ok obj)
    ∧ (∀ (recur : JSVal → List Char → Except Unit JSVal) (obj : JSVal)
        (key : List Char) (rest : List (List Char)), truthy obj = false →
        getPathGo recur obj (key :: rest) = .ok obj)
    ∧ (∀ (recur : JSVal → List Char → Except Unit JSVal)
        (segs : List (List Char)), getPathGo recur JSVal.undefined segs = .ok .undefined) :=
  ⟨getPath_isOk, getPath_blank, getPathGo_falsy, getPathGo_undefined⟩

/-- C6 counterexample to the claim as stated: at root `{a: null}` and path
`"a.b"` the intermediate value `null` is not indexable, yet `getPath`
returns `null` — not `undefined` as the claim requires. -/
theorem claimC6_counterexample :
    getPath (.obj [("a", .null)]) "a.b" = .ok .null
    ∧ getPath (.obj [("a", .null)]) "a.b" ≠ .ok .undefined :=
  ⟨rfl, fun h => nomatch h⟩

/-- C6 witness: the amended theorem applied at concrete inputs. -/
theorem claimC6_witness :
    getPath (.obj [("x", .num 1)]) "  " = .ok (.obj [("x", .num 1)])
    ∧ (getPath (.obj [("a", .obj [("b", .num 7)])]) "a.b").isOk = true :=
  ⟨claimC6_getPath_short_circuit.2.1 (.obj [("x", .num 1)]) "  " rfl,
   claimC6_getPath_short_circuit.1 (.obj [("a", .obj [("b", .num 7)])]) "a.b"⟩

/-! ### Lemmas for the `setPath`/`getPath` round trip -/

theorem objGet_objSet (fs : List (String × JSVal)) (k : String) (v : JSVal) :
    objGet (objSet fs k v) k = v := by
  induction fs with
  | nil => simp [objSet, objGet]
  | cons f fs ih =>
    by_cases h : f.1 = k
    · simp [objSet, objGet, h]
    · simp [objSet, objGet, h, ih]

theorem arrSet_get? (v : JSVal) :
    ∀ (i : Nat) (xs : List JSVal), (arrSet xs i v)[i]? = some v := by
  intro i
  induction i with
  | zero => intro xs; cases xs <;> simp [arrSet]
  | succ j ih => intro xs; cases xs <;> simpa [arrSet] using ih _

theorem segWritable_truthy {o : JSVal} {k : List Char}
    (h : segWritable o k = true) : truthy o = true := by
  cases o <;> simp_all [segWritable, truthy]

theorem mk_toList (k : List Char) : (String.mk k).toList = k := rfl

theorem parseIndex_digits {k : List Char} (h : isDigitsCh k = true) :
    parseIndex (String.mk k) = some (digitsVal k) := by
  simp [parseIndex, mk_toList, h]

theorem getFieldTotal_setFieldJS {o : JSVal} {k : List Char} (v : JSVal)
    (h : segWritable o k = true) :
    getFieldTotal (setFieldJS o (String.mk k) v) (String.mk k) = v := by
  cases o with
  | obj fs =>
    simp [setFieldJS, getFieldTotal, objGet_objSet]
  | arr xs =>
    have hd : isDigitsCh k = true := by simpa [segWritable] using h
    simp [setFieldJS, getFieldTotal, parseIndex_digits hd, arrGet, arrSet_get?]
  | undefined => simp [segWritable] at h
  | null => simp [segWritable] at h
  | bool b => simp [segWritable] at h
  | num n => simp [segWritable] at h
  | str s => simp [segWritable] at h

theorem digits_ne_nil {k : List Char} (h : isDigitsCh k = true) : k ≠ [] := by
  cases k <;> simp_all [isDigitsCh]

/-- Stepping the `getPath` loop over an object cursor. -/
theorem getPathGo_step_obj (recur : JSVal → List Char → Except Unit JSVal)
    (fs : List (String × JSVal)) (k : List Char) (rest : List (List Char)) :
    getPathGo recur (.obj fs) (k :: rest)
      = getPathGo recur (objGet fs (String.mk k)) rest := rfl

/-- Stepping the `getPath` loop over an array cursor with a nonempty key
(the broadcast branch needs an empty key). -/
theorem getPathGo_step_arr (recur : JSVal → List Char → Except Unit JSVal)
    (xs : List JSVal) (k : List Char) (rest : List (List Char)) (hk : k ≠ []) :
    getPathGo recur (.arr xs) (k :: rest)
      = getPathGo recur (arrGet xs (String.mk k)) rest := by
  cases k with
  | nil => exact absurd rfl hk
  | cons c cs => rfl

/-- One `getPath` step after a write lands on the written child. -/
theorem getPathGo_after_set (recur : JSVal → List Char → Except Unit JSVal)
    {o : JSVal} {k : List Char} (w : JSVal) (rest : List (List Char))
    (h : segWritable o k = true) :
    getPathGo recur (setFieldJS o (String.mk k) w) (k :: rest)
      = getPathGo recur w rest := by
  cases o with
  | obj fs =>
    rw [show setFieldJS (JSVal.obj fs) (String.mk k) w
        = .obj (objSet fs (String.mk k) w) from rfl]
    rw [getPathGo_step_obj, objGet_objSet]
  | arr xs =>
    have hd : isDigitsCh k = true := by simpa [segWritable] using h
    rw [show setFieldJS (JSVal.arr xs) (String.mk k) w
        = .arr (arrSet xs (digitsVal k) w) from by
      simp [setFieldJS, parseIndex_digits hd]]
    rw [getPathGo_step_arr _ _ _ _ (digits_ne_nil hd)]
    simp [arrGet, parseIndex_digits hd, arrSet_get?]
  | undefined => simp [segWritable] at h
  | null => simp [segWritable] at h
  | bool b => simp [segWritable] at h
  | num n => simp [segWritable] at h
  | str s => simp [segWritable] at h

theorem canWrite_segWritable {create : Bool} {o : JSVal} {k : List Char}
    {rest : List (List Char)} (h : canWrite create o (k :: rest) = true) :
    segWritable o k = true := by
  cases rest with
  | nil => simpa [canWrite] using h
  | cons next rest2 =>
    simp only [canWrite, Bool.and_eq_true] at h
    exact h.1

/-- The write/read round trip at the segment level: on a valid path the
value written by `setPath`'s reduce is exactly what `getPath`'s loop finds,
independently of the broadcast re-entry (valid paths have no empty
segments). -/
theorem setPath_roundtrip_segs (create : Bool) (v : JSVal) :
    ∀ (segs : List (List Char)) (o : JSVal)
      (recur : JSVal → List Char → Except Unit JSVal),
      canWrite create o segs = true →
      getPathGo recur (setPathSegs create v o segs) segs = .ok v := by
  intro segs
  induction segs with
  | nil => intro o recur h; simp [canWrite] at h
  | cons k rest ih =>
    intro o recur h
    cases rest with
    | nil =>
      have hseg : segWritable o k = true := by simpa [canWrite] using h
      have ht : truthy o = true := segWritable_truthy hseg
      rw [show setPathSegs create v o [k] = setFieldJS o (String.mk k) v from by
        simp [setPathSegs, ht]]
      rw [getPathGo_after_set recur v [] hseg]
      rfl
    | cons next rest2 =>
      have hseg : segWritable o k = true := canWrite_segWritable h
      have ht : truthy o = true := segWritable_truthy hseg
      have h2 : (match getFieldTotal o (String.mk k) with
          | .undefined => create && canWrite create (nextFresh next) (next :: rest2)
          | child => canWrite create child (next :: rest2)) = true := by
        have hb := h
        simp only [canWrite, Bool.and_eq_true] at hb
        exact hb.2
      rcases hch : getFieldTotal o (String.mk k) with _ | _ | b | n | s | xs2 | fs2
      · -- missing child: `createEmpty` materializes a fresh container
        rw [hch] at h2
        simp only [Bool.and_eq_true] at h2
        obtain ⟨hcreate, hcw⟩ := h2
        rw [show setPathSegs create v o (k :: next :: rest2)
            = setFieldJS o (String.mk k)
                (setPathSegs create v (nextFresh next) (next :: rest2)) from by
          simp [setPathSegs, ht, hch, hcreate]]
        rw [getPathGo_after_set recur _ (next :: rest2) hseg]
        exact ih _ recur hcw
      · -- a null child never passes validity
        rw [hch] at h2
        simp only at h2
        have := canWrite_segWritable h2
        simp [segWritable] at this
      · rw [hch] at h2
        simp only at h2
        have := canWrite_segWritable h2
        simp [segWritable] at this
      · rw [hch] at h2
        simp only at h2
        have := canWrite_segWritable h2
        simp [segWritable] at this
      · rw [hch] at h2
        simp only at h2
        have := canWrite_segWritable h2
        simp [segWritable] at this
      · -- existing array child
        rw [hch] at h2
        simp only at h2
        rw [show setPathSegs create v o (k :: next :: rest2)
            = setFieldJS o (String.mk k)
                (setPathSegs create v (.arr xs2) (next :: rest2)) from by
          simp [setPathSegs, ht, hch]]
        rw [getPathGo_after_set recur _ (next :: rest2) hseg]
        exact ih _ recur h2
      · -- existing object child
        rw [hch] at h2
        simp only at h2
        rw [show setPathSegs create v o (k :: next :: rest2)
            = setFieldJS o (String.mk k)
                (setPathSegs create v (.obj fs2) (next :: rest2)) from by
          simp [setPathSegs, ht, hch]]
        rw [getPathGo_after_set recur _ (next :: rest2) hseg]
        exact ih _ recur h2

theorem canWrite_trim_ne {create : Bool} {o : JSVal} {l : List Char}
    (h : canWrite create o (splitDotsCh (trimCh l)) = true) :
    (trimCh l).isEmpty = false := by
  cases hl : trimCh l with
  | nil =>
    rw [hl] at h
    simp only [splitDotsCh, canWrite] at h
    cases o <;> simp [segWritable, isDigitsCh] at h
  | cons c cs => rfl

theorem setFieldJS_arr (xs : List JSVal) (s : String) (w : JSVal) :
    ∃ ys, setFieldJS (.arr xs) s w = .arr ys := by
  simp only [setFieldJS]
  cases parseIndex s <;> exact ⟨_, rfl⟩

/-- `setPathSegs` never changes the container kind of its root. -/
theorem setPathSegs_arr (create : Bool) (v : JSVal) (xs : List JSVal)
    (segs : List (List Char)) : ∃ ys, setPathSegs create v (.arr xs) segs = .arr ys := by
  cases segs with
  | nil => exact ⟨xs, rfl⟩
  | cons k rest =>
    cases rest with
    | nil =>
      simp only [setPathSegs, truthy, if_true]
      exact setFieldJS_arr xs (String.mk k) v
    | cons next rest2 =>
      simp only [setPathSegs, truthy, if_true]
      rcases hch : getFieldTotal (JSVal.arr xs) (String.mk k)
          with _ | _ | b | n | s | xs2 | fs2
      · cases create with
        | true =>
          simp only [if_true]
          exact setFieldJS_arr xs (String.mk k) _
        | false =>
          simp only [if_false]
          exact ⟨xs, rfl⟩
      all_goals exact setFieldJS_arr xs (String.mk k) _

/-- `setPathSegs` never changes the container kind of its root (object
version). -/
theorem setPathSegs_obj (create : Bool) (v : JSVal) (fs : List (String × JSVal))
    (segs : List (List Char)) :
    ∃ gs, setPathSegs create v (.obj fs) segs = .obj gs := by
  cases segs with
  | nil => exact ⟨fs, rfl⟩
  | cons k rest =>
    cases rest with
    | nil =>
      simp only [setPathSegs, truthy, if_true]
      exact ⟨_, rfl⟩
    | cons next rest2 =>
      simp only [setPathSegs, truthy, if_true]
      rcases hch : getFieldTotal (JSVal.obj fs) (String.mk k)
          with _ | _ | b | n | s | xs2 | fs2
      · cases create with
        | true =>
          simp only [if_true]
          exact ⟨_, rfl⟩
        | false =>
          simp only [if_false]
          exact ⟨fs, rfl⟩
      all_goals exact ⟨_, rfl⟩

/-- C7.  Write/read round trip: for every valid dotted path (`canWrite`:
each visited segment addresses a container — nonempty keys on objects,
numeric keys on arrays — and missing intermediates only occur when
`createEmpty` materializes them), writing with `setPath` and then reading
with `getPath` yields exactly the written value; and when `createEmpty` is
set, a missing intermediate container is materialized as an empty array if
the next segment is purely numeric and as an empty object otherwise. -/
theorem claimC7_setPath_getPath_roundtrip :
    (∀ (o : JSVal) (path : String) (v : JSVal) (create : Bool),
      canWrite create o (splitDotsCh (trimCh path.toList)) = true →
      getPath (setPath o path v create) path = .ok v)
    ∧ (∀ (o : JSVal) (k next : List Char) (rest : List (List Char)) (v : JSVal),
        segWritable o k = true → getFieldTotal o (String.mk k) = .undefined →
        (isDigitsCh next = true →
          ∃ ys, getFieldTotal (setPathSegs true v o (k :: next :: rest))
            (String.mk k) = .arr ys)
        ∧ (isDigitsCh next = false →
          ∃ gs, getFieldTotal (setPathSegs true v o (k :: next :: rest))
            (String.mk k) = .obj gs)) := by
  constructor
  · intro o path v create h
    have hne : (trimCh path.toList).isEmpty = false := canWrite_trim_ne h
    simp only [getPath, getPathFuelCh, setPath, hne, Bool.false_eq_true, if_false]
    exact setPath_roundtrip_segs create v _ o _ h
  · intro o k next rest v hseg hch
    have ht : truthy o = true := segWritable_truthy hseg
    have hrw : setPathSegs true v o (k :: next :: rest)
        = setFieldJS o (String.mk k)
            (setPathSegs true v (nextFresh next) (next :: rest)) := by
      simp [setPathSegs, ht, hch]
    constructor
    · intro hd
      obtain ⟨ys, hys⟩ := setPathSegs_arr true v [] (next :: rest)
      refine ⟨ys, ?_⟩
      rw [hrw, getFieldTotal_setFieldJS _ hseg]
      rw [show nextFresh next = .arr [] from by simp [nextFresh, hd]]
      exact hys
    · intro hd
      obtain ⟨gs, hgs⟩ := setPathSegs_obj true v [] (next :: rest)
      refine ⟨gs, ?_⟩
      rw [hrw, getFieldTotal_setFieldJS _ hseg]
      rw [show nextFresh next = .obj [] from by simp [nextFresh, hd]]
      exact hgs

/-- C7 witness: the round trip at a concrete root, path and value, with
`createEmpty` materializing both an object and an array intermediate. -/
theorem claimC7_witness :
    getPath (setPath (.obj []) "a.2.b" (.str "x") true) "a.2.b" = .ok (.str "x")
    ∧ getPath (setPath (.obj [("a", .obj [("b", .num 1)])]) "a.b" (.num 9) false)
        "a.b" = .ok (.num 9) :=
  ⟨claimC7_setPath_getPath_roundtrip.1 (.obj []) "a.2.b" (.str "x") true rfl,
   claimC7_setPath_getPath_roundtrip.1 (.obj [("a", .obj [("b", .num 1)])])
     "a.b" (.num 9) false rfl⟩

/-! ### Claims about `getTargetWindow` -/

/-- A concrete browser environment in which `window.open` throws for
`_blank` and returns `null` for popups, and no frame names resolve. -/
def winEnvEx : WinEnv where
  selfW := 0
  parentW := 1
  topW := some 2
  openBlank := .error ()
  openPopup := fun _ _ => .ok none
  framesW := fun _ => none

/-- C1 (amended).  `getTargetWindow` never raises for any target that is
not a throwing function — window objects, every string (including `_self`,
`_parent`, `_top`, `_blank`, `popup` and arbitrary frame names) and every
non-string primitive — and each unreachable-target case degrades to the
current window: an invalid target type, a blocked or null `window.open`
(for both `_blank` and `popup`), and an unknown frame name all yield
`self`.  A caller-supplied function target whose invocation succeeds is
resolved like its result; only a throwing function target propagates the
error. -/
theorem claimC1_getTargetWindow_no_raise :
    (∀ (env : WinEnv) (w h : Nat) (t : WTarget), t ≠ .fnT (.error ()) →
      (getTargetWindow env t w h).isOk = true)
    ∧ (∀ (env : WinEnv) (w h : Nat) (t : WTarget),
        getTargetWindow env (.fnT (.ok t)) w h = .ok (resolveTarget env w h t))
    ∧ (∀ (env : WinEnv) (w h : Nat),
        getTargetWindow env .otherT w h = .ok env.selfW
        ∧ getTargetWindow env .nullT w h = .ok env.selfW)
    ∧ (∀ (env : WinEnv) (w h : Nat), env.openBlank = .error () ∨ env.openBlank = .ok none →
        getTargetWindow env (.strT "_blank") w h = .ok env.selfW)
    ∧ (∀ (env : WinEnv) (w h : Nat),
        env.openPopup w h = .error () ∨ env.openPopup w h = .ok none →
        getTargetWindow env (.strT "popup") w h = .ok env.selfW)
    ∧ (∀ (env : WinEnv) (w h : Nat) (s : String),
        s ≠ "_self" → s ≠ "_parent" → s ≠ "_top" → s ≠ "_blank" → s ≠ "popup" →
        env.framesW s = none → getTargetWindow env (.strT s) w h = .ok env.selfW) := by
  refine ⟨?_, ?_, ?_, ?_, ?_, ?_⟩
  · intro env w h t hne
    cases t with
    | fnT res =>
      cases res with
      | ok t2 => rfl
      | error e => exact absurd rfl hne
    | winT w2 => rfl
    | strT s => rfl
    | nullT => rfl
    | otherT => rfl
  · intro env w h t
    rfl
  · intro env w h
    exact ⟨rfl, rfl⟩
  · intro env w h hopen
    rcases hopen with hopen | hopen <;>
      simp [getTargetWindow, resolveTarget, hopen]
  · intro env w h hopen
    rcases hopen with hopen | hopen <;>
      simp [getTargetWindow, resolveTarget, hopen]
  · intro env w h s h1 h2 h3 h4 h5 hframe
    simp [getTargetWindow, resolveTarget, h1, h2, h3, h4, h5, hframe]

/-- C1 counterexample to the claim as stated: a caller-supplied function
target that throws makes `getTargetWindow` reject instead of returning the
current window — the function invocation is awaited outside any
`try`/`catch`. -/
theorem claimC1_counterexample :
    (getTargetWindow winEnvEx (.fnT (.error ()))).isOk = false := rfl

/-- C1 witness: the amended theorem at a concrete environment where
`window.open` throws for `_blank`, returns null for `popup`, and a frame
lookup misses: all three degrade to `self`. -/
theorem claimC1_witness :
    (getTargetWindow winEnvEx (.strT "_blank")).isOk = true
    ∧ getTargetWindow winEnvEx (.strT "popup") = .ok winEnvEx.selfW
    ∧ getTargetWindow winEnvEx (.strT "someFrame") = .ok winEnvEx.selfW :=
  ⟨claimC1_getTargetWindow_no_raise.1 winEnvEx 800 720 (.strT "_blank")
      (fun h => nomatch h),
   claimC1_getTargetWindow_no_raise.2.2.2.2.1 winEnvEx 800 720 (Or.inr rfl),
   claimC1_getTargetWindow_no_raise.2.2.2.2.2 winEnvEx 800 720 "someFrame"
      (fun h => nomatch h) (fun h => nomatch h) (fun h => nomatch h)
      (fun h => nomatch h) (fun h => nomatch h) rfl⟩

/-! ### Claims about `jwtDecode` and `getAccessTokenExpiration` -/

/-- C2 (amended).  `jwtDecode` returns `null` whenever splitting the token
on `.` yields no truthy second segment; when a nonempty second segment
exists, it returns the claims parsed from `env.atob` of that segment — and
it propagates, rather than swallows, a throw of the base64 decoder (or of
`JSON.parse`) on a malformed segment. -/
theorem claimC2_jwtDecode_null_or_decode :
    (∀ (rt : JsRuntime) (token : String),
      (jwtPayload token).isEmpty = true → jwtDecode rt token = .ok none)
    ∧ (∀ (rt : JsRuntime) (token : String) (s : String) (v : JSVal),
        (jwtPayload token).isEmpty = false →
        rt.atob (jwtPayload token) = .ok s → rt.jsonParse s = .ok v →
        jwtDecode rt token = .ok (some v))
    ∧ (∀ (rt : JsRuntime) (token : String),
        (jwtPayload token).isEmpty = false →
        rt.atob (jwtPayload token) = .error () →
        jwtDecode rt token = .error ()) := by
  refine ⟨?_, ?_, ?_⟩
  · intro rt token h
    simp [jwtDecode, h]
  · intro rt token s v h ha hp
    simp [jwtDecode, h, ha, hp]
  · intro rt token h ha
    simp [jwtDecode, h, ha]

/-- C2 counterexample to the claim as stated: on the malformed token
`"a.b.c"` the second segment `"b"` is present, but the browser `atob`
throws on it (its length is 1 mod 4), so `jwtDecode` raises instead of
returning a decoded mapping or `null`. -/
theorem claimC2_counterexample :
    jwtDecode stdRuntime "a.b.c" = .error ()
    ∧ jwtDecode stdRuntime "x.aGVsbG8.y" = .error () := ⟨rfl, rfl⟩

/-- C2 witness: the amended theorem on a token with no second segment and
on a well-formed token. -/
theorem claimC2_witness :
    jwtDecode stdRuntime "abc" = .ok none
    ∧ jwtDecode stdRuntime "a.eyJleHAiOjE3MDAwMDAwMDB9.s"
        = .ok (some (.obj [("exp", .num 1700000000)])) :=
  ⟨claimC2_jwtDecode_null_or_decode.1 stdRuntime "abc" rfl,
   claimC2_jwtDecode_null_or_decode.2.1 stdRuntime "a.eyJleHAiOjE3MDAwMDAwMDB9.s"
     "\x7b\"exp\":1700000000\x7d" (.obj [("exp", .num 1700000000)]) rfl rfl rfl⟩

/-- The example access token: header `a`, payload base64 of the claims
mapping with `exp` 1700000000, signature `s`. -/
def tokenEx : String := "a.eyJleHAiOjE3MDAwMDAwMDB9.s"

/-- C3 (amended).  `getAccessTokenExpiration` returns, in priority order:
`now + expires_in` whenever `expires_in` is present and truthy (nonzero);
otherwise, when `access_token` is truthy and `jwtDecode` yields a truthy
claims mapping with a truthy `exp`, that `exp`; otherwise `now + 300` —
with `jwtDecode` failures propagating.  In particular `{expires_in: 3600}`
yields `now + 3600` and a token whose middle segment encodes
`exp = 1700000000`, with no `expires_in`, yields exactly `1700000000`. -/
theorem claimC3_getAccessTokenExpiration_priority :
    (∀ (rt : JsRuntime) (now : Int) (t : TokenResponse) (n : Int),
      t.expires_in = some n → n ≠ 0 →
      getAccessTokenExpiration rt now t = .ok (.num (now + n)))
    ∧ (∀ (rt : JsRuntime) (now : Int) (t : TokenResponse) (b : JSVal),
        truthyOptNum t.expires_in = false → truthyOptStr t.access_token = true →
        jwtDecode rt (t.access_token.getD "") = .ok (some b) →
        (truthy b && truthy (getFieldTotal b "exp")) = true →
        getAccessTokenExpiration rt now t = .ok (getFieldTotal b "exp"))
    ∧ (∀ (rt : JsRuntime) (now : Int) (t : TokenResponse),
        truthyOptNum t.expires_in = false → truthyOptStr t.access_token = false →
        getAccessTokenExpiration rt now t = .ok (.num (now + 300)))
    ∧ (∀ (rt : JsRuntime) (now : Int) (t : TokenResponse),
        truthyOptNum t.expires_in = false → truthyOptStr t.access_token = true →
        jwtDecode rt (t.access_token.getD "") = .ok none →
        getAccessTokenExpiration rt now t = .ok (.num (now + 300)))
    ∧ (∀ (rt : JsRuntime) (now : Int) (t : TokenResponse) (b : JSVal),
        truthyOptNum t.expires_in = false → truthyOptStr t.access_token = true →
        jwtDecode rt (t.access_token.getD "") = .ok (some b) →
        (truthy b && truthy (getFieldTotal b "exp")) = false →
        getAccessTokenExpiration rt now t = .ok (.num (now + 300)))
    ∧ (∀ (now : Int),
        getAccessTokenExpiration stdRuntime now { expires_in := some 3600 }
          = .ok (.num (now + 3600)))
    ∧ getAccessTokenExpiration stdRuntime 1000 { access_token := some tokenEx }
        = .ok (.num 1700000000) := by
  refine ⟨?_, ?_, ?_, ?_, ?_, ?_, ?_⟩
  · intro rt now t n hn hnz
    have hb : truthyOptNum (some n) = true := by simp [truthyOptNum, hnz]
    simp [getAccessTokenExpiration, hn, hb]
  · intro rt now t b he ha hd hexp
    simp [getAccessTokenExpiration, he, ha, hd, hexp]
  · intro rt now t he ha
    simp [getAccessTokenExpiration, he, ha]
  · intro rt now t he ha hd
    simp [getAccessTokenExpiration, he, ha, hd]
  · intro rt now t b he ha hd hexp
    simp [getAccessTokenExpiration, he, ha, hd, hexp]
  · intro now
    have hb : truthyOptNum (some (3600 : Int)) = true := by simp [truthyOptNum]
    simp [getAccessTokenExpiration, hb]
  · rfl

/-- C3 counterexample to the claim as stated: for `{expires_in: 0}` the
field is present, yet the truthiness test skips it and the fallback
`now + 300` is returned instead of `now + 0`. -/
theorem claimC3_counterexample :
    getAccessTokenExpiration stdRuntime 1000 { expires_in := some 0 }
      = .ok (.num 1300)
    ∧ (JSVal.num 1300 = JSVal.num (1000 + 0) → False) :=
  ⟨rfl, fun h => nomatch h⟩

/-- C3 witness: the amended theorem applied at `expires_in = 3600` and at
the decoded-`exp` token. -/
theorem claimC3_witness :
    getAccessTokenExpiration stdRuntime 1000 { expires_in := some 3600 }
      = .ok (.num 4600)
    ∧ getAccessTokenExpiration stdRuntime 77
        { access_token := some tokenEx } = .ok (.num 1700000000) :=
  ⟨claimC3_getAccessTokenExpiration_priority.1 stdRuntime 1000
      { expires_in := some 3600 } 3600 rfl (by decide),
   claimC3_getAccessTokenExpiration_priority.2.1 stdRuntime 77
      { access_token := some tokenEx } (.obj [("exp", .num 1700000000)])
      rfl rfl rfl rfl⟩

/-! ### Claims about `getAndCache` -/

theorem cacheStore_find_self (entries : List (String × Nat)) (url : String) (id : Nat) :
    (cacheStore entries url id).find? (fun e => e.1 = url) = some (url, id) := by
  induction entries with
  | nil => simp [cacheStore, List.find?]
  | cons e es ih =>
    by_cases h : e.1 = url
    · simp [cacheStore, h, List.find?]
    · simp [cacheStore, h, List.find?, ih]

theorem cacheStore_find_other (entries : List (String × Nat)) (url url' : String)
    (id : Nat) (hne : url' ≠ url) :
    (cacheStore entries url id).find? (fun e => e.1 = url')
      = entries.find? (fun e => e.1 = url') := by
  induction entries with
  | nil =>
    have h2 : ¬(url = url') := fun hh => hne hh.symm
    simp [cacheStore, List.find?, h2]
  | cons e es ih =>
    by_cases h : e.1 = url
    · have h2 : ¬(url = url') := fun hh => hne hh.symm
      have h3 : ¬(e.1 = url') := by
        rw [h]
        exact h2
      simp [cacheStore, h, List.find?, h2, h3]
    · by_cases h3 : e.1 = url'
      · simp [cacheStore, h, List.find?, h3, hne]
      · simp [cacheStore, h, List.find?, h3, ih]

/-- A cached URL is served from the cache: same promise, no state change. -/
theorem getAndCache_hit {s : CacheState} {url : String} {k : Nat}
    (h : cacheLookup s url = some k) : getAndCache url false s = (k, s) := by
  simp [getAndCache, h]

/-- An uncached URL issues exactly one request and stores its promise. -/
theorem getAndCache_miss {s : CacheState} {url : String}
    (h : cacheLookup s url = none) :
    getAndCache url false s
      = (s.nextId, { entries := cacheStore s.entries url s.nextId,
                     nextId := s.nextId + 1 }) := by
  simp [getAndCache, h]

theorem cacheLookup_store_self (s : CacheState) (url : String) (id n : Nat) :
    cacheLookup { entries := cacheStore s.entries url id, nextId := n } url
      = some id := by
  simp [cacheLookup, cacheStore_find_self]

/-- Repeated unforced calls on a cached URL return the same promise and
never touch the state. -/
theorem getAndCacheN_hit {s : CacheState} {url : String} {k : Nat}
    (h : cacheLookup s url = some k) :
    ∀ n, getAndCacheN n url s = (List.replicate n k, s) := by
  intro n
  induction n with
  | zero => rfl
  | succ m ih => simp [getAndCacheN, getAndCache_hit h, ih, List.replicate]

/-- Entries for other URLs survive any call. -/
theorem cacheLookup_preserved {s : CacheState} {url url' : String} {k : Nat}
    (force : Bool) (hne : url' ≠ url) (h : cacheLookup s url' = some k) :
    cacheLookup (getAndCache url force s).2 url' = some k := by
  unfold getAndCache
  cases hc : cacheLookup s url with
  | some p =>
    cases force with
    | true =>
      simpa [cacheLookup, cacheStore_find_other s.entries url url' s.nextId hne]
        using h
    | false => simpa [cacheLookup] using h
  | none =>
    simpa [cacheLookup, cacheStore_find_other s.entries url url' s.nextId hne]
      using h

/-- C4.  On an uncached URL, `n ≥ 1` back-to-back callers (the event-loop
picture of `n` concurrent callers) observe the one shared promise created
by the first call, and exactly one underlying request is issued
(`nextId` grows by exactly one).  A forced call issues a fresh request and
replaces the entry; and no call ever evicts the entry of another URL. -/
theorem claimC4_getAndCache_single_flight :
    (∀ (s : CacheState) (url : String) (n : Nat), 1 ≤ n →
      cacheLookup s url = none →
      (getAndCacheN n url s).1 = List.replicate n s.nextId
      ∧ (getAndCacheN n url s).2.nextId = s.nextId + 1)
    ∧ (∀ (s : CacheState) (url : String),
        (getAndCache url true s).1 = s.nextId
        ∧ (getAndCache url true s).2.nextId = s.nextId + 1
        ∧ cacheLookup (getAndCache url true s).2 url = some s.nextId)
    ∧ (∀ (s : CacheState) (url url' : String) (force : Bool) (k : Nat),
        url' ≠ url → cacheLookup s url' = some k →
        cacheLookup (getAndCache url force s).2 url' = some k) := by
  refine ⟨?_, ?_, ?_⟩
  · intro s url n hn hm
    cases n with
    | zero => exact absurd hn (by omega)
    | succ m =>
      have hmiss := getAndCache_miss hm
      have hlook : cacheLookup
          { entries := cacheStore s.entries url s.nextId, nextId := s.nextId + 1 }
          url = some s.nextId := cacheLookup_store_self s url s.nextId _
      constructor
      · simp [getAndCacheN, hmiss, getAndCacheN_hit hlook m, List.replicate]
      · simp [getAndCacheN, hmiss, getAndCacheN_hit hlook m]
  · intro s url
    cases hc : cacheLookup s url with
    | some p =>
      refine ⟨?_, ?_, ?_⟩
      · simp [getAndCache, hc]
      · simp [getAndCache, hc]
      · simp [getAndCache, hc, cacheLookup_store_self]
    | none =>
      refine ⟨?_, ?_, ?_⟩
      · simp [getAndCache, hc]
      · simp [getAndCache, hc]
      · simp [getAndCache, hc, cacheLookup_store_self]
  · intro s url url' force k hne h
    exact cacheLookup_preserved force hne h

/-- C4 witness: three concurrent callers on an empty cache observe one
shared promise (id 0) and exactly one request is issued; a forced call on
the resulting state issues request 1 and replaces the entry. -/
theorem claimC4_witness :
    (getAndCacheN 3 "u" {}).1 = [0, 0, 0]
    ∧ (getAndCacheN 3 "u" {}).2.nextId = 1
    ∧ cacheLookup (getAndCache "u" true (getAndCacheN 3 "u" {}).2).2 "u" = some 1 := by
  refine ⟨?_, ?_, ?_⟩
  · exact (claimC4_getAndCache_single_flight.1 {} "u" 3 (by omega) rfl).1
  · exact (claimC4_getAndCache_single_flight.1 {} "u" 3 (by omega) rfl).2
  · exact ((claimC4_getAndCache_single_flight.2.1 (getAndCacheN 3 "u" {}).2 "u").2.2)

/-- C10.  The cache entry is the promise itself, so a rejected request
stays cached: an unforced call on a cached URL returns the very same
promise without touching the state (no new request, no eviction), the
observed outcome — including a rejection — is therefore identical for
every later caller, and the entry survives any sequence of calls that
never forces that URL. -/
theorem claimC10_getAndCache_caches_rejections :
    (∀ (s : CacheState) (url : String) (k : Nat),
      cacheLookup s url = some k → getAndCache url false s = (k, s))
    ∧ (∀ (outcome : Nat → Except Unit JSVal) (s : CacheState) (url : String)
        (k : Nat), cacheLookup s url = some k → outcome k = .error () →
        outcome (getAndCache url false s).1 = .error ())
    ∧ (∀ (calls : List (String × Bool)) (s : CacheState) (url : String) (k : Nat),
        cacheLookup s url = some k →
        (∀ c ∈ calls, c.1 = url → c.2 = false) →
        cacheLookup (runCalls calls s) url = some k) := by
  refine ⟨?_, ?_, ?_⟩
  · intro s url k h
    exact getAndCache_hit h
  · intro outcome s url k h hrej
    rw [getAndCache_hit h]
    exact hrej
  · intro calls
    induction calls with
    | nil => intro s url k h _; exact h
    | cons c cs ih =>
      intro s url k h hforce
      by_cases hc : c.1 = url
      · have hf : c.2 = false := hforce c (by simp) hc
        have : getAndCache c.1 c.2 s = (k, s) := by
          rw [hc, hf]
          exact getAndCache_hit h
        simp only [runCalls, this]
        exact ih s url k h (fun d hd => hforce d (by simp [hd]))
      · have hpres : cacheLookup (getAndCache c.1 c.2 s).2 url = some k :=
          cacheLookup_preserved c.2 (fun hh => hc hh.symm) h
        simp only [runCalls]
        exact ih _ url k hpres (fun d hd => hforce d (by simp [hd]))

/-- C10 witness: with the promise with id 0 cached for `"u"` and an outcome
assignment rejecting it, a later unforced call observes the same rejection
and a mixed call sequence (other URLs, plus unforced calls on `"u"`) never
retries or evicts it. -/
theorem claimC10_witness :
    getAndCache "u" false { entries := [("u", 0)], nextId := 1 }
      = (0, { entries := [("u", 0)], nextId := 1 })
    ∧ cacheLookup (runCalls [("v", true), ("u", false), ("w", false)]
        { entries := [("u", 0)], nextId := 1 }) "u" = some 0 :=
  ⟨claimC10_getAndCache_caches_rejections.1
      { entries := [("u", 0)], nextId := 1 } "u" 0 rfl,
   claimC10_getAndCache_caches_rejections.2.2
      [("v", true), ("u", false), ("w", false)]
      { entries := [("u", 0)], nextId := 1 } "u" 0 rfl (by
        intro c hc hcu
        fin_cases hc <;> simp_all)⟩

/-! ### Claim about the `request` 201-with-Location follow-up -/

/-- C5.  Whenever a (successful) response has status 201, a falsy decoded
body and a `location` header, the pipeline re-issues the request to that
location with the same options except `method` forced to GET and `body`
cleared, and returns that second request's result in place of the
original; since the equation holds at every recursion depth, chained
201-with-Location replies resolve to the final resource. -/
theorem claimC5_request_follows_location
    (rt : JsRuntime) (env : String → FetchOptions → FetchResponse) (fuel : Nat)
    (url : String) (opts : FetchOptions) (b : JSVal) (loc : String)
    (hok : (env url opts).ok = true) (hstatus : (env url opts).status = 201)
    (hbody : decodeBody rt (env url opts) = .ok b) (hfalsy : truthy b = false)
    (hloc : (env url opts).location = some loc) :
    request rt env (fuel + 1) url opts
      = request rt env fuel loc { opts with method := some "GET", body := none } := by
  simp [request, hok, hstatus, hbody, hfalsy, hloc]

/-- A two-hop create chain: `"a"` replies 201 (no body) pointing at `"b"`,
which replies 201 pointing at `"c"`, which returns the created resource. -/
def chainEnv : String → FetchOptions → FetchResponse := fun u _ =>
  if u = "a" then
    { ok := true, status := 201, isJson := false, isText := false,
      bodyText := "", location := some "b" }
  else if u = "b" then
    { ok := true, status := 201, isJson := false, isText := false,
      bodyText := "", location := some "c" }
  else
    { ok := true, status := 200, isJson := true, isText := false,
      bodyText := "\x7b\"id\":1\x7d", location := none }

/-- C5 witness: the theorem applied on the concrete chain (first hop), and
the chain indeed resolves to the final resource at `"c"`. -/
theorem claimC5_witness :
    request stdRuntime chainEnv 5 "a" {}
      = request stdRuntime chainEnv 4 "b"
          { method := some "GET", body := none, includeResponse := false }
    ∧ request stdRuntime chainEnv 5 "a" {} = .ok (.jsonBody (.obj [("id", .num 1)])) :=
  ⟨claimC5_request_follows_location stdRuntime chainEnv 4 "a" {} .undefined "b"
      rfl rfl rfl rfl rfl,
   rfl⟩

/-! ### Claims about `assertJsonPatch` -/

theorem isStrEq_iff (v : JSVal) (s : String) : isStrEq v s = true ↔ v = .str s := by
  cases v <;> simp [isStrEq]

/-- The spec's per-operation condition, read literally: "every operation's
op is one of add, replace, test, move, copy, remove and it has a path;
add/replace/test operations have a value field and exactly three fields
total; move/copy operations have a string from field and exactly three
fields total; remove operations have exactly two fields total" — with
"has a path" as the presence of a `path` field. -/
def SpecOpWellFormed (o : JSVal) : Prop :=
  ∃ s, getFieldTotal o "op" = .str s ∧ s ∈ jsonPatchOps
    ∧ hasKey o "path" = true
    ∧ ((s = "add" ∨ s = "replace" ∨ s = "test") →
        hasKey o "value" = true ∧ numKeys o = 3)
    ∧ ((s = "move" ∨ s = "copy") →
        isStringVal (getFieldTotal o "from") = true ∧ numKeys o = 3)
    ∧ (s = "remove" → numKeys o = 2)

/-- The spec's document-level condition, read literally. -/
def SpecPatchWellFormed (patch : JSVal) : Prop :=
  ∃ ops, patch = .arr ops ∧ ops ≠ [] ∧ ∀ o ∈ ops, SpecOpWellFormed o

/-- The amended per-operation condition: as `SpecOpWellFormed` but with a
*truthy* `path` field (e.g. a non-empty string) rather than a merely
present one. -/
def SpecOpWellFormedT (o : JSVal) : Prop :=
  ∃ s, getFieldTotal o "op" = .str s ∧ s ∈ jsonPatchOps
    ∧ truthy (getFieldTotal o "path") = true
    ∧ ((s = "add" ∨ s = "replace" ∨ s = "test") →
        hasKey o "value" = true ∧ numKeys o = 3)
    ∧ ((s = "move" ∨ s = "copy") →
        isStringVal (getFieldTotal o "from") = true ∧ numKeys o = 3)
    ∧ (s = "remove" → numKeys o = 2)

/-- The amended document-level condition. -/
def SpecPatchWellFormedT (patch : JSVal) : Prop :=
  ∃ ops, patch = .arr ops ∧ ops ≠ [] ∧ ∀ o ∈ ops, SpecOpWellFormedT o

theorem patchOpOk_iff (o : JSVal) : patchOpOk o = true ↔ SpecOpWellFormedT o := by
  constructor
  · intro h
    simp only [patchOpOk, Bool.and_eq_true] at h
    obtain ⟨⟨hany, hpath⟩, hbranch⟩ := h
    rw [List.any_eq_true] at hany
    obtain ⟨s, hmem, hstr⟩ := hany
    rw [isStrEq_iff] at hstr
    rw [hstr] at hbranch
    refine ⟨s, hstr, hmem, hpath, ?_, ?_, ?_⟩
    · rintro (rfl | rfl | rfl) <;>
        simpa [isStrEq, Bool.and_eq_true] using hbranch
    · rintro (rfl | rfl) <;>
        simpa [isStrEq, Bool.and_eq_true] using hbranch
    · rintro rfl
      simpa [isStrEq] using hbranch
  · rintro ⟨s, hop, hmem, hpath, h1, h2, h3⟩
    simp only [jsonPatchOps, List.mem_cons, List.not_mem_nil, or_false] at hmem
    rcases hmem with rfl | rfl | rfl | rfl | rfl | rfl
    · obtain ⟨hv, hk⟩ := h1 (Or.inl rfl)
      simp [patchOpOk, hop, isStrEq, jsonPatchOps, hpath, hv, hk]
    · obtain ⟨hv, hk⟩ := h1 (Or.inr (Or.inl rfl))
      simp [patchOpOk, hop, isStrEq, jsonPatchOps, hpath, hv, hk]
    · obtain ⟨hv, hk⟩ := h1 (Or.inr (Or.inr rfl))
      simp [patchOpOk, hop, isStrEq, jsonPatchOps, hpath, hv, hk]
    · obtain ⟨hv, hk⟩ := h2 (Or.inl rfl)
      simp [patchOpOk, hop, isStrEq, jsonPatchOps, hpath, hv, hk]
    · obtain ⟨hv, hk⟩ := h2 (Or.inr rfl)
      simp [patchOpOk, hop, isStrEq, jsonPatchOps, hpath, hv, hk]
    · have hk := h3 rfl
      simp [patchOpOk, hop, isStrEq, jsonPatchOps, hpath, hk]

/-- C8 (amended).  `assertJsonPatch` succeeds exactly when: the document is
a non-empty array; every operation's `op` is one of add, replace, test,
move, copy, remove and it has a *truthy* `path`; add/replace/test
operations carry a `value` field and exactly three fields; move/copy carry
a string `from` and exactly three fields; remove operations have exactly
two fields; extra fields are rejected (via the exact field counts).  Plus
the four behaviours the spec lists as examples. -/
theorem claimC8_assertJsonPatch_iff :
    (∀ patch : JSVal, assertJsonPatch patch = true ↔ SpecPatchWellFormedT patch)
    ∧ assertJsonPatch
        (.arr [.obj [("op", .str "add"), ("path", .str "/a"), ("value", .num 1)]])
        = true
    ∧ assertJsonPatch (.arr [.obj [("op", .str "add"), ("path", .str "/a")]]) = false
    ∧ assertJsonPatch (.arr []) = false
    ∧ assertJsonPatch
        (.arr [.obj [("op", .str "move"), ("path", .str "/a"), ("value", .num 1)]])
        = false := by
  refine ⟨?_, rfl, rfl, rfl, rfl⟩
  intro patch
  constructor
  · intro h
    cases patch with
    | arr ops =>
      simp only [assertJsonPatch, Bool.and_eq_true, List.all_eq_true] at h
      refine ⟨ops, rfl, ?_, fun o ho => (patchOpOk_iff o).1 (h.2 o ho)⟩
      intro hnil
      rw [hnil] at h
      simp at h
    | undefined => exact absurd h (by simp [assertJsonPatch])
    | null => exact absurd h (by simp [assertJsonPatch])
    | bool b => exact absurd h (by simp [assertJsonPatch])
    | num n => exact absurd h (by simp [assertJsonPatch])
    | str s => exact absurd h (by simp [assertJsonPatch])
    | obj fs => exact absurd h (by simp [assertJsonPatch])
  · rintro ⟨ops, rfl, hne, hall⟩
    simp only [assertJsonPatch, Bool.and_eq_true, List.all_eq_true]
    refine ⟨?_, fun o ho => (patchOpOk_iff o).2 (hall o ho)⟩
    cases ops with
    | nil => exact absurd rfl hne
    | cons o os => simp

/-- C8 counterexample to the claim as stated: the operation
`{op:"remove", path:""}` has an `op` from the list, a present `path` field
and exactly two fields, so the claim's conditions hold — yet
`assertJsonPatch` rejects it, because the code requires `path` to be
truthy and `""` is falsy. -/
theorem claimC8_counterexample :
    SpecPatchWellFormed (.arr [.obj [("op", .str "remove"), ("path", .str "")]])
    ∧ assertJsonPatch (.arr [.obj [("op", .str "remove"), ("path", .str "")]])
        = false := by
  constructor
  · refine ⟨[.obj [("op", .str "remove"), ("path", .str "")]], rfl, by simp, ?_⟩
    intro o ho
    simp only [List.mem_singleton] at ho
    subst ho
    refine ⟨"remove", rfl, by simp [jsonPatchOps], rfl, ?_, ?_, fun _ => rfl⟩
    · rintro (h | h | h) <;> exact absurd h (by simp)
    · rintro (h | h) <;> exact absurd h (by simp)
  · rfl

/-- C8 witness: the amended iff applied to the concrete passing example. -/
theorem claimC8_witness :
    SpecPatchWellFormedT
      (.arr [.obj [("op", .str "add"), ("path", .str "/a"), ("value", .num 1)]]) :=
  (claimC8_assertJsonPatch_iff.1
    (.arr [.obj [("op", .str "add"), ("path", .str "/a"), ("value", .num 1)]])).1 rfl

/-! ### Claim about `getPatientParam` -/

/-- `Array.isArray`. -/
def isArrVal : JSVal → Bool
  | .arr _ => true
  | _ => false

/-- C9.  If the first declared resource descriptor of type `"Patient"`
declares an `_id` search parameter, `getPatientParam(conformance,
"Patient")` returns `"_id"` whatever else is declared and whatever the
priority list contains.  For any other resource type it returns the first
name of the priority-ordered `patientParams` list that the server
declares, and it fails when the resource type is undeclared, when the
found descriptor declares no search-parameter array, or when no listed
name matches. -/
theorem claimC9_getPatientParam :
    (∀ (pp : List String) (conf : JSVal) (rs : List JSVal) (meta : JSVal)
        (sps : List JSVal),
      getPath conf "rest.0.resource" = .ok (.arr rs) →
      rs.find? (fun r => isStrEq (getFieldTotal r "type") "Patient") = some meta →
      getFieldTotal meta "searchParam" = .arr sps →
      sps.any (fun x => isStrEq (getFieldTotal x "name") "_id") = true →
      getPatientParam pp conf "Patient" = .ok "_id")
    ∧ (∀ (pp : List String) (conf : JSVal) (rt2 : String) (rs : List JSVal)
        (meta : JSVal) (sps : List JSVal) (out : String),
        rt2 ≠ "Patient" →
        getPath conf "rest.0.resource" = .ok (.arr rs) →
        rs.find? (fun r => isStrEq (getFieldTotal r "type") rt2) = some meta →
        getFieldTotal meta "searchParam" = .arr sps →
        pp.find? (fun p => sps.any (fun x => isStrEq (getFieldTotal x "name") p))
          = some out →
        getPatientParam pp conf rt2 = .ok out)
    ∧ (∀ (pp : List String) (conf : JSVal) (rt2 : String) (rs : List JSVal)
        (meta : JSVal) (sps : List JSVal),
        rt2 ≠ "Patient" →
        getPath conf "rest.0.resource" = .ok (.arr rs) →
        rs.find? (fun r => isStrEq (getFieldTotal r "type") rt2) = some meta →
        getFieldTotal meta "searchParam" = .arr sps →
        pp.find? (fun p => sps.any (fun x => isStrEq (getFieldTotal x "name") p))
          = none →
        getPatientParam pp conf rt2 = .error ())
    ∧ (∀ (pp : List String) (conf : JSVal) (rt2 : String) (rs : List JSVal),
        getPath conf "rest.0.resource" = .ok (.arr rs) →
        rs.find? (fun r => isStrEq (getFieldTotal r "type") rt2) = none →
        getPatientParam pp conf rt2 = .error ())
    ∧ (∀ (pp : List String) (conf : JSVal) (rt2 : String) (rs : List JSVal)
        (meta : JSVal),
        getPath conf "rest.0.resource" = .ok (.arr rs) →
        rs.find? (fun r => isStrEq (getFieldTotal r "type") rt2) = some meta →
        isArrVal (getFieldTotal meta "searchParam") = false →
        getPatientParam pp conf rt2 = .error ()) := by
  refine ⟨?_, ?_, ?_, ?_, ?_⟩
  · intro pp conf rs meta sps hpath hfind hsp hany
    simp [getPatientParam, hpath, truthy, hfind, hsp, hany]
  · intro pp conf rt2 rs meta sps out hne hpath hfind hsp hout
    have hb : (rt2 == "Patient") = false := by
      simpa using hne
    simp [getPatientParam, hpath, truthy, hfind, hsp, hb, hout]
  · intro pp conf rt2 rs meta sps hne hpath hfind hsp hnone
    have hb : (rt2 == "Patient") = false := by
      simpa using hne
    simp [getPatientParam, hpath, truthy, hfind, hsp, hb, hnone]
  · intro pp conf rt2 rs hpath hfind
    simp [getPatientParam, hpath, truthy, hfind]
  · intro pp conf rt2 rs meta hpath hfind hsp
    cases h : getFieldTotal meta "searchParam" with
    | arr sps => rw [h] at hsp; exact absurd hsp (by simp [isArrVal])
    | undefined => simp [getPatientParam, hpath, truthy, hfind, h]
    | null => simp [getPatientParam, hpath, truthy, hfind, h]
    | bool b => simp [getPatientParam, hpath, truthy, hfind, h]
    | num n => simp [getPatientParam, hpath, truthy, hfind, h]
    | str s => simp [getPatientParam, hpath, truthy, hfind, h]
    | obj fs => simp [getPatientParam, hpath, truthy, hfind, h]

/-- A concrete conformance statement: `Patient` declares `patient` before
`_id` (so `_id` is not first), `Observation` declares only `subject`. -/
def confEx : JSVal :=
  .obj [("rest", .arr [.obj [("resource", .arr [
    .obj [("type", .str "Patient"),
          ("searchParam", .arr [.obj [("name", .str "patient")],
                                .obj [("name", .str "_id")]])],
    .obj [("type", .str "Observation"),
          ("searchParam", .arr [.obj [("name", .str "subject")]])]])]])]

/-- C9 witness: on `confEx`, `Patient` resolves to `_id` (although
`patient` has higher priority in the list), and `Observation` resolves to
`subject`, the first declared name of the priority list. -/
theorem claimC9_witness :
    getPatientParam ["patient", "subject"] confEx "Patient" = .ok "_id"
    ∧ getPatientParam ["patient", "subject"] confEx "Observation" = .ok "subject" :=
  ⟨claimC9_getPatientParam.1 ["patient", "subject"] confEx _ _ _ rfl rfl rfl rfl,
   claimC9_getPatientParam.2.1 ["patient", "subject"] confEx "Observation" _ _ _
     "subject" (fun h => nomatch h) rfl rfl rfl rfl⟩

end FhirLib
